import Mathlib

/-!
# Verification of the `graceful` shutdown orchestrator

Shallow embedding of the Go package `erry-az/go-graceful`
(files `graceful.go`, `shutdown.go`, `var.go`) in Lean 4, together with
proofs of the specified properties.

Modelling choices:

* A Go `time.Duration` is an `Int` counting nanoseconds.
* A Go `error` value is `Option GoErr`: `none` is the nil error.
* A hook's `process func(context.Context) error` is denoted by the
  behaviour the shutdown coordinator can observe from it: either it
  returns at some (abstract, monotone) time with some error value, or it
  has not returned by any time relevant to the coordinator (`hangs`).
* A background task `func() error` is denoted by its eventual result.
* `uuid.New()` (an external unique-id source) is modelled by a counter
  `nextId` threaded through the orchestrator state; `uuid.String()` is
  modelled by `toString` of that counter.
* The `errgroup` semantics used by `shutdown()` is made explicit:
  the derived group context is cancelled at `cancelTime` (the earlier of
  the deadline and, when `cancelOnError` holds, the first hook-unit
  error), each hook's `select` race is resolved against that time, and
  `errgroup.Wait` returns the first non-nil result in resolution order.
-/

/-- Go error values as observed in this package: the two `context`
package sentinel errors plus arbitrary application errors carried by
hooks and tasks. A Go `error` is `Option GoErr` (`none` = nil). -/
inductive GoErr where
  | deadlineExceeded
  | canceled
  | errMsg (msg : String)
deriving DecidableEq, Repr

/-- Denotation of a hook's `process func(context.Context) error`:
either the call returns at time `t` with result `err`, or it does not
return within the coordinator's horizon. Times are abstract instants
measured from the start of `shutdown()` on the same scale as
`maxShutdownTime`. -/
inductive HookBeh where
  | completes (t : Int) (err : Option GoErr)
  | hangs
deriving DecidableEq, Repr

/-- Denotation of a background task `func() error`: its eventual result. -/
abbrev TaskBeh := Option GoErr

/-- OS signals appearing in the package (`var.go`): `os.Interrupt`,
`syscall.SIGINT`, `syscall.SIGTERM`, `syscall.SIGHUP`, and any other. -/
inductive Sig where
  | osInterrupt
  | sigint
  | sigterm
  | sighup
  | other (n : Nat)
deriving DecidableEq, Repr

/-- Model of `time.Second` in nanoseconds. -/
def second : Int := 1000000000

/-- Model of `defaultMaxShutdownTime = 10 * time.Second` (`var.go`). -/
def defaultMaxShutdownTime : Int := 10 * second

/-- Model of `defaultMaxShutdownProcess = 5` (`var.go`). -/
def defaultMaxShutdownProcess : Int := 5

/-- Model of `shutdownTag = "graceful-shutdown-tag"` (`var.go`). -/
def shutdownTagKey : String := "graceful-shutdown-tag"

/-- Model of `shutdownSuccessMessage = "shutdown success"` (`var.go`). -/
def shutdownSuccessMessage : String := "shutdown success"

/-- Model of `defaultSignals = []os.Signal{os.Interrupt, syscall.SIGINT,
syscall.SIGTERM, syscall.SIGHUP}` (`var.go`). -/
def defaultSignals : List Sig := [.osInterrupt, .sigint, .sigterm, .sighup]

/-- The `shutdown` struct (`shutdown.go`): an id, a display tag and the
registered process function (denoted by its behaviour). -/
structure Shutdown where
  id : Nat
  tag : String
  process : HookBeh
deriving DecidableEq, Repr

/-- Model of `uuid.UUID.String()` for the counter-modelled id source. -/
def uuidString (n : Nat) : String := toString n

/-- Model of `newShutdown(tag, process)` (`shutdown.go`): draw a fresh id; if the
tag is empty it defaults to the id's string form; return the constructed
hook together with the id. `fresh` is the state of the external
unique-id source. -/
def newShutdown (fresh : Nat) (tag : String) (process : HookBeh) :
    Shutdown × Nat :=
  let id := fresh
  let tag' := if tag = "" then uuidString id else tag
  ({ id := id, tag := tag', process := process }, id)

/-- The `Graceful` struct (`graceful.go`). The signal contexts, the
cancel function and the mutex are represented by their observable
content: the subscribed signal set, the results of the scheduled
background tasks, and the registry. `nextId` models the external
unique-id source. -/
structure Graceful where
  signals : List Sig
  bgTasks : List TaskBeh
  shutdowns : List Shutdown
  maxShutdownTime : Int
  maxShutdownProcess : Int
  cancelOnError : Bool
  nextId : Nat
deriving DecidableEq

namespace Graceful

/-- Model of `NewWithContext(ctx, signals...)` (`graceful.go`): if no signal is
supplied subscribe to `defaultSignals`, otherwise to exactly the given
ones; all configuration starts at the package defaults, the registry is
empty, `cancelOnError` is the zero value `false`. -/
def NewWithContext (signals : List Sig) : Graceful :=
  let signals := if signals.length = 0 then defaultSignals else signals
  { signals := signals
    bgTasks := []
    shutdowns := []
    maxShutdownTime := defaultMaxShutdownTime
    maxShutdownProcess := defaultMaxShutdownProcess
    cancelOnError := false
    nextId := 0 }

/-- Model of `New(signals...)` (`graceful.go`): delegates to `NewWithContext`
with the background context. -/
def New (signals : List Sig) : Graceful :=
  NewWithContext signals

/-- Model of `SetCancelOnError(value)` (`graceful.go`). -/
def SetCancelOnError (g : Graceful) (value : Bool) : Graceful :=
  { g with cancelOnError := value }

/-- Model of `SetMaxShutdownTime(duration)` (`graceful.go`): a duration below 1
nanosecond falls back to the default. -/
def SetMaxShutdownTime (g : Graceful) (duration : Int) : Graceful :=
  if duration < 1 then { g with maxShutdownTime := defaultMaxShutdownTime }
  else { g with maxShutdownTime := duration }

/-- Model of `SetMaxShutdownProcess(max)` (`graceful.go`): a count below 1 falls
back to the default. -/
def SetMaxShutdownProcess (g : Graceful) (max : Int) : Graceful :=
  if max < 1 then { g with maxShutdownProcess := defaultMaxShutdownProcess }
  else { g with maxShutdownProcess := max }

/-- Model of `RegisterProcess(process)` (`graceful.go`): a nil process is a
no-op; otherwise the task is handed to the errgroup. -/
def RegisterProcess (g : Graceful) (process : Option TaskBeh) : Graceful :=
  match process with
  | none => g
  | some p => { g with bgTasks := g.bgTasks ++ [p] }

/-- Model of `RegisterProcessWithContext(process)` (`graceful.go`): a nil process
is a no-op; otherwise the task (closed over the group context) is handed
to the errgroup. -/
def RegisterProcessWithContext (g : Graceful) (process : Option TaskBeh) :
    Graceful :=
  match process with
  | none => g
  | some p => { g with bgTasks := g.bgTasks ++ [p] }

/-- Model of `RegisterShutdownProcessWithTag(process, tag)` (`graceful.go`): a nil
process is a no-op returning the empty id; otherwise, under the mutex,
build the hook with `newShutdown` and append it, returning the string
form of the fresh id. -/
def RegisterShutdownProcessWithTag (g : Graceful) (process : Option HookBeh)
    (tag : String) : Graceful × String :=
  match process with
  | none => (g, "")
  | some p =>
      let sp := newShutdown g.nextId tag p
      ({ g with shutdowns := g.shutdowns ++ [sp.1], nextId := g.nextId + 1 },
       uuidString sp.2)

/-- Model of `RegisterShutdownProcess(process)` (`graceful.go`): delegates with
an empty tag. -/
def RegisterShutdownProcess (g : Graceful) (process : Option HookBeh) :
    Graceful × String :=
  g.RegisterShutdownProcessWithTag process ""

/-! ## The shutdown coordinator (`shutdown()` in `graceful.go`)

`shutdown()` derives a timeout context `shutdownCtx` expiring at
`maxShutdownTime`, an errgroup over it with limit `maxShutdownProcess`,
and for every registered hook spawns a group goroutine that races the
hook's process call against the group context in a `select`:
the losing wait is abandoned, a process result that arrives first is
logged and returned when `cancelOnError` is set (nil otherwise), and
the group context's error is returned when cancellation arrives first.
`shutdownGroup.Wait()` returns the first non-nil goroutine result.

The derived group context becomes done at the earlier of the deadline
and — when `cancelOnError` is set — the instant the first erroring hook
unit returns its error to the group. That instant and the error that
caused it are computed below from the hook behaviours. -/

/-- One step of the scan for the earliest erroring hook completion:
keep the earlier of the accumulated candidate and the hook's own
error-completion, if any. -/
def feStep (acc : Option (Int × GoErr)) (s : Shutdown) : Option (Int × GoErr) :=
  match s.process with
  | .completes t (some e) =>
      match acc with
      | none => some (t, e)
      | some q => if t < q.1 then some (t, e) else acc
  | _ => acc

/-- Earliest `(time, error)` at which some registered hook's process
returns a non-nil error; among simultaneous ones the earliest-registered
is taken. -/
def firstErrHook (g : Graceful) : Option (Int × GoErr) :=
  g.shutdowns.foldl feStep none

/-- The early-cancellation candidate: with `cancelOnError` set, the
first hook error cancels the shutdown group; otherwise every goroutine
returns nil and only the deadline cancels. -/
def cancelInfo (g : Graceful) : Option (Int × GoErr) :=
  if g.cancelOnError then firstErrHook g else none

/-- The instant the shutdown group context becomes done: the first hook
error when `cancelOnError` is set and it beats the deadline, else the
deadline `maxShutdownTime`. -/
def cancelTime (g : Graceful) : Int :=
  match cancelInfo g with
  | some (t, _) => if t < g.maxShutdownTime then t else g.maxShutdownTime
  | none => g.maxShutdownTime

/-- The cancellation cause of the shutdown group context: `some e` when
an erroring hook cancelled it before the deadline (errgroup's
cancellation), `none` when (only) the deadline fires. -/
def cancelCause (g : Graceful) : Option GoErr :=
  match cancelInfo g with
  | some (t, e) => if t < g.maxShutdownTime then some e else none
  | none => none

/-- Model of `ctx.Err()` of the shutdown group context once done:
`context.Canceled` after an errgroup cancellation, otherwise
`context.DeadlineExceeded` from the parent timeout context. -/
def ctxErr (g : Graceful) : GoErr :=
  match cancelCause g with
  | some _ => .canceled
  | none => .deadlineExceeded

/-- Whether a process result arriving at time `t` wins its `select`
race against the group context. A cancellation caused by a hook error
takes effect only after that erroring unit has already returned, so
results arriving at the cancellation instant itself still win; against
the deadline the context branch is taken. -/
def processWinsAt (g : Graceful) (t : Int) : Bool :=
  match cancelCause g with
  | some _ => t ≤ cancelTime g
  | none => t < cancelTime g

/-- The result returned to the errgroup by the goroutine racing hook
`s`: the process result (when `cancelOnError`, else nil) if it wins the
race, the group context's error otherwise. -/
def unitResult (g : Graceful) (s : Shutdown) : Option GoErr :=
  match s.process with
  | .completes t err =>
      if processWinsAt g t then (if g.cancelOnError then err else none)
      else some (ctxErr g)
  | .hangs => some (ctxErr g)

/-- The instant hook `s`'s goroutine returns to the errgroup. -/
def resTime (g : Graceful) (s : Shutdown) : Int :=
  match s.process with
  | .completes t _ => if processWinsAt g t then t else cancelTime g
  | .hangs => cancelTime g

/-- The non-nil goroutine results of the shutdown group, each with its
resolution instant. -/
def failures (g : Graceful) : List (Int × GoErr) :=
  g.shutdowns.filterMap fun s => (unitResult g s).map fun e => (resTime g s, e)

/-- Pick the earlier of an accumulated failure and a new one
(earliest-registered among simultaneous ones). -/
def pickFirst (acc : Option (Int × GoErr)) (p : Int × GoErr) :
    Option (Int × GoErr) :=
  match acc with
  | none => some p
  | some q => if p.1 < q.1 then some p else acc

/-- Model of `shutdown()`'s return value, i.e. `shutdownGroup.Wait()`: the first
non-nil goroutine result in resolution order, nil if every goroutine
returned nil. -/
def shutdownResult (g : Graceful) : Option GoErr :=
  ((failures g).foldl pickFirst none).map (·.2)

/-- The per-hook reports emitted to the logger: every hook whose process
result wins its race is reported with its tag and its error (nil error
logged as success). -/
def observerReports (g : Graceful) : List (String × Option GoErr) :=
  g.shutdowns.filterMap fun s =>
    match s.process with
    | .completes t err =>
        if processWinsAt g t then some (s.tag, err) else none
    | .hangs => none

/-! ## `Wait()` (`graceful.go`)

`Wait()` schedules one more group goroutine that blocks on the group
context; once a termination signal (or a task failure) fires, that
goroutine runs `shutdown()` when at least one hook is registered and
returns nil otherwise; `g.group.Wait()` then returns the first non-nil
result among the background tasks and this internal goroutine. The
model below assumes the termination event occurred (otherwise `Wait`
blocks forever and returns nothing). -/

/-- The guard `len(g.shutdowns) > 0` deciding whether `Wait`'s internal
goroutine invokes the shutdown coordinator at all. -/
def waitInvokesShutdown (g : Graceful) : Bool :=
  decide (0 < g.shutdowns.length)

/-- The first non-nil error of a result list (errgroup aggregation:
nil results never surface, the outcome is nil iff all results are). -/
def firstErr : List (Option GoErr) → Option GoErr
  | [] => none
  | none :: rest => firstErr rest
  | some e :: _ => some e

/-- Model of `Wait()`'s return value after the termination event: the errgroup
aggregate of the background-task results and the internal goroutine's
result (`shutdown()`'s outcome when hooks are registered, nil else). -/
def Wait (g : Graceful) : Option GoErr :=
  firstErr (g.bgTasks ++
    [if waitInvokesShutdown g then shutdownResult g else none])

end Graceful

/-! ## Bounded-concurrency admission (`errgroup.SetLimit`)

`shutdown()` caps concurrency with `shutdownGroup.SetLimit(
g.maxShutdownProcess)`: `Go` admits a new goroutine only while fewer
than the limit are active, and the loop admits hooks in registration
order. The admission discipline is modelled as a step relation on a
pool state; completion order is left arbitrary. -/

/-- State of the bounded pool during one shutdown run: hooks not yet
admitted (in registration order) and hooks currently running. -/
structure PoolState where
  waiting : List Shutdown
  running : List Shutdown
deriving DecidableEq

/-- One scheduler step of the limited errgroup: admit the next waiting
hook while a slot is free, or let any running hook's unit resolve. -/
inductive PoolStep (limit : Nat) : PoolState → PoolState → Prop where
  | enter (s : Shutdown) (rest running : List Shutdown)
      (hfree : running.length < limit) :
      PoolStep limit ⟨s :: rest, running⟩ ⟨rest, s :: running⟩
  | finish (waiting r₁ r₂ : List Shutdown) (s : Shutdown) :
      PoolStep limit ⟨waiting, r₁ ++ s :: r₂⟩ ⟨waiting, r₁ ++ r₂⟩

/-- Reachability under the pool scheduler. -/
inductive PoolReach (limit : Nat) : PoolState → PoolState → Prop where
  | refl (st : PoolState) : PoolReach limit st st
  | step {a b c : PoolState} : PoolStep limit a b → PoolReach limit b c →
      PoolReach limit a c

/-- The pool state at the start of `shutdown()`: every registered hook
waiting, none admitted yet. -/
def Graceful.initPool (g : Graceful) : PoolState :=
  ⟨g.shutdowns, []⟩

/-! ## Decidable hypothesis predicates -/

/-- The hook's process call returns (with any result) strictly before
instant `dl`. -/
def HookBeh.returnsBefore : HookBeh → Int → Prop
  | .completes t _, dl => t < dl
  | .hangs, _ => False

instance (b : HookBeh) (dl : Int) : Decidable (b.returnsBefore dl) := by
  cases b with
  | completes t err => exact inferInstanceAs (Decidable (t < dl))
  | hangs => exact inferInstanceAs (Decidable False)

/-- Hook `s'` carries no error completion earlier than the failure
`(t, e)`: any error completion of `s'` is strictly later, or is the
very same time and error. -/
def firstFailureAt (t : Int) (e : GoErr) (s' : Shutdown) : Prop :=
  match s'.process with
  | .completes t' (some e') => t < t' ∨ (t' = t ∧ e' = e)
  | _ => True

instance (t : Int) (e : GoErr) (s' : Shutdown) :
    Decidable (firstFailureAt t e s') := by
  unfold firstFailureAt
  split
  · exact inferInstanceAs (Decidable (_ ∨ _))
  · exact inferInstanceAs (Decidable True)

/-! ## Concrete fixtures used by the witness theorems -/

/-- A hook behaviour failing after one second. -/
def hookA : HookBeh := .completes second (some (.errMsg "errA"))

/-- A hook behaviour succeeding after two seconds. -/
def hookB : HookBeh := .completes (2 * second) none

/-- The hook record produced by registering `hookA` first with tag
`"a"`. -/
def hookAReg : Shutdown := (newShutdown 0 "a" hookA).1

/-- The hook record produced by registering `HookBeh.hangs` first with
no tag. -/
def hookHangReg : Shutdown := (newShutdown 0 "" HookBeh.hangs).1

/-- An orchestrator with two succeeding background tasks, hook `hookA`
(tag `"a"`) and hook `hookB` (no tag), `cancelOnError` left false. -/
def gC1w : Graceful :=
  ((((Graceful.New []).RegisterShutdownProcessWithTag (some hookA)
        "a").1.RegisterShutdownProcessWithTag (some hookB)
      "").1.RegisterProcess (some none)).RegisterProcessWithContext
    (some none)

/-- The same orchestrator with `cancelOnError` switched on. -/
def gC2w : Graceful := gC1w.SetCancelOnError true

/-- An orchestrator with a single hanging hook. -/
def gC3w : Graceful :=
  ((Graceful.New []).RegisterShutdownProcess (some HookBeh.hangs)).1

/-- An orchestrator with a background task and no hooks. -/
def gC6w : Graceful := (Graceful.New []).RegisterProcess (some none)

/-- An orchestrator with concurrency cap 1 and two registered hooks. -/
def gC9w : Graceful :=
  ((((Graceful.New []).SetMaxShutdownProcess
        1).RegisterShutdownProcessWithTag (some hookA)
      "a").1.RegisterShutdownProcessWithTag (some hookB) "b").1

/-- The hook record produced by registering `hookB` second with tag
`"b"`. -/
def hookBReg : Shutdown := (newShutdown 1 "b" hookB).1

/-- The pool state of `gC9w` after its first hook is admitted. -/
def poolC9w : PoolState := ⟨[hookBReg], [(newShutdown 0 "a" hookA).1]⟩

/-! ## Helper lemmas -/

namespace Graceful

theorem pickFirst_isSome (acc : Option (Int × GoErr)) (p : Int × GoErr) :
    (pickFirst acc p).isSome := by
  cases acc with
  | none => rfl
  | some q =>
      simp only [pickFirst]
      split <;> rfl

theorem foldl_pickFirst_isSome (l : List (Int × GoErr)) :
    ∀ acc : Option (Int × GoErr), acc.isSome ∨ l ≠ [] →
      (l.foldl pickFirst acc).isSome := by
  induction l with
  | nil =>
      intro acc h
      rcases h with h | h
      · simpa using h
      · exact absurd rfl h
  | cons p rest ih =>
      intro acc _
      exact ih (pickFirst acc p) (Or.inl (pickFirst_isSome acc p))

theorem foldl_pickFirst_mem (l : List (Int × GoErr)) :
    ∀ acc r, l.foldl pickFirst acc = some r → acc = some r ∨ r ∈ l := by
  induction l with
  | nil => intro acc r h; exact Or.inl h
  | cons p rest ih =>
      intro acc r h
      rcases ih (pickFirst acc p) r h with h' | h'
      · cases acc with
        | none =>
            simp only [pickFirst] at h'
            cases h'
            exact Or.inr (List.mem_cons_self p rest)
        | some q =>
            simp only [pickFirst] at h'
            split at h'
            · exact Or.inr (by
                cases h'
                exact List.mem_cons_self p rest)
            · exact Or.inl h'
      · exact Or.inr (List.mem_cons_of_mem p h')

theorem failures_eq_nil_iff (g : Graceful) :
    failures g = [] ↔ ∀ s ∈ g.shutdowns, unitResult g s = none := by
  simp only [failures, List.filterMap_eq_nil_iff, Option.map_eq_none']

theorem mem_failures (g : Graceful) {p : Int × GoErr}
    (h : p ∈ failures g) :
    ∃ s ∈ g.shutdowns, unitResult g s = some p.2 ∧ resTime g s = p.1 := by
  simp only [failures, List.mem_filterMap, Option.map_eq_some'] at h
  rcases h with ⟨s, hs, e, he, hp⟩
  exact ⟨s, hs, by rw [he, ← hp], by rw [← hp]⟩

theorem shutdownResult_eq_none_iff (g : Graceful) :
    shutdownResult g = none ↔ ∀ s ∈ g.shutdowns, unitResult g s = none := by
  rw [← failures_eq_nil_iff]
  constructor
  · intro h
    by_contra hne
    have hsome := foldl_pickFirst_isSome (failures g) none (Or.inr hne)
    rcases Option.isSome_iff_exists.mp hsome with ⟨r, hr⟩
    rw [shutdownResult, hr] at h
    exact Option.noConfusion h
  · intro h
    simp [shutdownResult, h]

theorem shutdownResult_ne_none (g : Graceful) {s : Shutdown} {e : GoErr}
    (hs : s ∈ g.shutdowns) (he : unitResult g s = some e) :
    shutdownResult g ≠ none := by
  intro h
  have := (shutdownResult_eq_none_iff g).mp h s hs
  rw [this] at he
  exact Option.noConfusion he

theorem shutdownResult_mem (g : Graceful) {e : GoErr}
    (h : shutdownResult g = some e) :
    ∃ s ∈ g.shutdowns, unitResult g s = some e := by
  simp only [shutdownResult, Option.map_eq_some'] at h
  rcases h with ⟨r, hr, he⟩
  rcases foldl_pickFirst_mem (failures g) none r hr with h' | h'
  · exact Option.noConfusion h'
  · rcases mem_failures g h' with ⟨s, hs, hu, _⟩
    exact ⟨s, hs, by rw [hu, he]⟩

theorem firstErr_eq_none_iff (l : List (Option GoErr)) :
    firstErr l = none ↔ ∀ r ∈ l, r = none := by
  induction l with
  | nil => simp [firstErr]
  | cons r rest ih =>
      cases r with
      | none => simp [firstErr, ih]
      | some e => simp [firstErr]

theorem cancelTime_of_cancelCause_none (g : Graceful)
    (h : cancelCause g = none) : cancelTime g = g.maxShutdownTime := by
  unfold cancelCause at h
  unfold cancelTime
  rcases hc : cancelInfo g with _ | ⟨t, e⟩
  · rfl
  · rw [hc] at h
    simp only at h ⊢
    split at h
    · exact Option.noConfusion h
    · simp_all

end Graceful

namespace Graceful

theorem feStep_some_le (q₀ : Int × GoErr) (s : Shutdown) :
    ∃ q₁, feStep (some q₀) s = some q₁ ∧ q₁.1 ≤ q₀.1 := by
  cases hp : s.process with
  | completes t err =>
      cases err with
      | none => exact ⟨q₀, by simp [feStep, hp], le_refl _⟩
      | some e =>
          by_cases hlt : t < q₀.1
          · exact ⟨(t, e), by simp [feStep, hp, hlt], le_of_lt hlt⟩
          · exact ⟨q₀, by simp [feStep, hp, hlt], le_refl _⟩
  | hangs => exact ⟨q₀, by simp [feStep, hp], le_refl _⟩

theorem foldl_feStep_acc_le (l : List Shutdown) :
    ∀ q₀ : Int × GoErr, ∃ q, l.foldl feStep (some q₀) = some q ∧ q.1 ≤ q₀.1 := by
  induction l with
  | nil => intro q₀; exact ⟨q₀, rfl, le_refl _⟩
  | cons s rest ih =>
      intro q₀
      rcases feStep_some_le q₀ s with ⟨q₁, hq₁, hle₁⟩
      rcases ih q₁ with ⟨q, hq, hle⟩
      exact ⟨q, by simpa [hq₁] using hq, le_trans hle hle₁⟩

theorem foldl_feStep_mem_le (t' : Int) (e' : GoErr) (l : List Shutdown) :
    ∀ acc, (∃ s ∈ l, s.process = .completes t' (some e')) →
      ∃ q, l.foldl feStep acc = some q ∧ q.1 ≤ t' := by
  induction l with
  | nil => intro acc h; simp at h
  | cons s rest ih =>
      intro acc h
      rcases h with ⟨s'', hmem, hproc⟩
      rcases List.mem_cons.mp hmem with heq | hmem'
      · subst heq
        have hstep : ∃ q₁, feStep acc s'' = some q₁ ∧ q₁.1 ≤ t' := by
          cases acc with
          | none => exact ⟨(t', e'), by simp [feStep, hproc], le_refl _⟩
          | some q₀ =>
              by_cases hlt : t' < q₀.1
              · exact ⟨(t', e'), by simp [feStep, hproc, hlt], le_refl _⟩
              · exact ⟨q₀, by simp [feStep, hproc, hlt],
                  le_of_not_lt hlt⟩
        rcases hstep with ⟨q₁, hq₁, hle₁⟩
        rcases foldl_feStep_acc_le rest q₁ with ⟨q, hq, hle⟩
        exact ⟨q, by simpa [hq₁] using hq, le_trans hle hle₁⟩
      · exact ih (feStep acc s) ⟨s'', hmem', hproc⟩

theorem foldl_feStep_eq (t : Int) (e : GoErr) (l : List Shutdown)
    (hmin : ∀ s' ∈ l, ∀ t' e', s'.process = .completes t' (some e') →
      t < t' ∨ (t' = t ∧ e' = e)) :
    ∀ acc, (∀ q, acc = some q → t < q.1 ∨ q = (t, e)) →
      (acc = some (t, e) ∨ ∃ s ∈ l, s.process = .completes t (some e)) →
      l.foldl feStep acc = some (t, e) := by
  induction l with
  | nil =>
      intro acc hacc hex
      rcases hex with h | h
      · exact h
      · simp at h
  | cons s rest ih =>
      intro acc hacc hex
      have hminr : ∀ s' ∈ rest, ∀ t' e',
          s'.process = .completes t' (some e') → t < t' ∨ (t' = t ∧ e' = e) :=
        fun s' hs' => hmin s' (List.mem_cons_of_mem s hs')
      have hacc' : ∀ q, feStep acc s = some q → t < q.1 ∨ q = (t, e) := by
        intro q hq
        cases hp : s.process with
        | completes t₁ err₁ =>
            cases err₁ with
            | none => rw [feStep, hp] at hq; exact hacc q hq
            | some e₁ =>
                have hm := hmin s (List.mem_cons_self s rest) t₁ e₁ hp
                cases acc with
                | none =>
                    rw [feStep, hp] at hq
                    cases hq
                    rcases hm with h | ⟨h1, h2⟩
                    · exact Or.inl h
                    · exact Or.inr (by simp [h1, h2])
                | some q₀ =>
                    by_cases hlt : t₁ < q₀.1
                    · simp only [feStep, hp, if_pos hlt] at hq
                      cases hq
                      rcases hm with h | ⟨h1, h2⟩
                      · exact Or.inl h
                      · exact Or.inr (by simp [h1, h2])
                    · simp only [feStep, hp, if_neg hlt] at hq
                      exact hacc q hq
        | hangs => rw [feStep, hp] at hq; exact hacc q hq
      have hex' : feStep acc s = some (t, e) ∨
          ∃ s' ∈ rest, s'.process = .completes t (some e) := by
        rcases hex with hl | ⟨s'', hmem, hproc⟩
        · left
          subst hl
          cases hp : s.process with
          | completes t₁ err₁ =>
              cases err₁ with
              | none => rw [feStep, hp]
              | some e₁ =>
                  have hm := hmin s (List.mem_cons_self s rest) t₁ e₁ hp
                  have hnlt : ¬ t₁ < t := by
                    rcases hm with h | ⟨h1, _⟩
                    · exact lt_asymm h
                    · simp [h1]
                  rw [feStep, hp]
                  simp [hnlt]
          | hangs => rw [feStep, hp]
        · rcases List.mem_cons.mp hmem with heq | hmem'
          · subst heq
            left
            cases acc with
            | none => rw [feStep, hproc]
            | some q₀ =>
                rcases hacc q₀ rfl with h | h
                · rw [feStep, hproc]
                  simp [h]
                · subst h
                  rw [feStep, hproc]
                  simp
          · exact Or.inr ⟨s'', hmem', hproc⟩
      exact ih hminr (feStep acc s) hacc' hex'

theorem firstErrHook_eq (g : Graceful) (t : Int) (e : GoErr)
    (hex : ∃ s ∈ g.shutdowns, s.process = .completes t (some e))
    (hmin : ∀ s' ∈ g.shutdowns, ∀ t' e',
      s'.process = .completes t' (some e') → t < t' ∨ (t' = t ∧ e' = e)) :
    firstErrHook g = some (t, e) :=
  foldl_feStep_eq t e g.shutdowns hmin none
    (fun _ h => Option.noConfusion h) (Or.inr hex)

theorem firstErrHook_le (g : Graceful) {s : Shutdown} {t' : Int} {e' : GoErr}
    (hs : s ∈ g.shutdowns) (hp : s.process = .completes t' (some e')) :
    ∃ q, firstErrHook g = some q ∧ q.1 ≤ t' :=
  foldl_feStep_mem_le t' e' g.shutdowns none ⟨s, hs, hp⟩

end Graceful

namespace Graceful

theorem ctxErr_of_cancelCause_none (g : Graceful)
    (hdl : cancelCause g = none) : ctxErr g = .deadlineExceeded := by
  simp [ctxErr, hdl]

theorem unitResult_of_cancelCause_none (g : Graceful)
    (hdl : cancelCause g = none) {s : Shutdown} {e : GoErr}
    (hs : s ∈ g.shutdowns) (he : unitResult g s = some e) :
    e = .deadlineExceeded := by
  have hctx := ctxErr_of_cancelCause_none g hdl
  have hct := cancelTime_of_cancelCause_none g hdl
  cases hp : s.process with
  | hangs =>
      rw [unitResult, hp, hctx] at he
      cases he
      rfl
  | completes t err =>
      by_cases hwin : processWinsAt g t = true
      · simp only [unitResult, hp, hwin, if_true] at he
        cases hco : g.cancelOnError with
        | false => rw [hco] at he; simp at he
        | true =>
            rw [hco, if_pos rfl] at he
            subst he
            have hlt : t < g.maxShutdownTime := by
              simp only [processWinsAt, hdl] at hwin
              rw [hct] at hwin
              exact of_decide_eq_true hwin
            rcases firstErrHook_le g hs hp with ⟨q, hq, hle⟩
            have hci : cancelInfo g = some q := by simp [cancelInfo, hco, hq]
            have : cancelCause g = some q.2 := by
              simp [cancelCause, hci, lt_of_le_of_lt hle hlt]
            rw [this] at hdl
            exact Option.noConfusion hdl
      · simp only [unitResult, hp, hwin, if_false, Bool.false_eq_true] at he
        rw [hctx] at he
        cases he
        rfl

theorem waitInvokesShutdown_true (g : Graceful) {s : Shutdown}
    (hs : s ∈ g.shutdowns) : waitInvokesShutdown g = true := by
  simp only [waitInvokesShutdown, decide_eq_true_eq, List.length_pos]
  exact List.ne_nil_of_mem hs

end Graceful

/-! ## Claim theorems -/

namespace Graceful

/-- C1: for every set of registered hooks whose process functions all
return before the deadline fires, if `cancelOnError` is false then
`shutdown()` returns nil regardless of how many hook processes return
errors, `Wait()` returns nil provided no background task failed, and
every hook's outcome (in particular every failure) is passed to the
observer/logger with its tag. -/
theorem claim_C1_cancelOnError_false_hook_failures_not_propagated
    (g : Graceful)
    (hco : g.cancelOnError = false)
    (hdone : ∀ s ∈ g.shutdowns, s.process.returnsBefore g.maxShutdownTime) :
    shutdownResult g = none ∧
    ((∀ r ∈ g.bgTasks, r = none) → Wait g = none) ∧
    (∀ s ∈ g.shutdowns, ∀ t err, s.process = .completes t err →
      (s.tag, err) ∈ observerReports g) := by
  have hci : cancelInfo g = none := by simp [cancelInfo, hco]
  have hct : cancelTime g = g.maxShutdownTime := by simp [cancelTime, hci]
  have hcc : cancelCause g = none := by simp [cancelCause, hci]
  have hwin : ∀ t : Int, t < g.maxShutdownTime → processWinsAt g t = true := by
    intro t ht
    simp [processWinsAt, hcc, hct, ht]
  have hunit : ∀ s ∈ g.shutdowns, unitResult g s = none := by
    intro s hs
    have hd := hdone s hs
    cases hp : s.process with
    | completes t err =>
        rw [hp] at hd
        simp only [HookBeh.returnsBefore] at hd
        simp [unitResult, hp, hwin t hd, hco]
    | hangs =>
        rw [hp] at hd
        exact absurd hd (by simp [HookBeh.returnsBefore])
  have hsr : shutdownResult g = none := (shutdownResult_eq_none_iff g).mpr hunit
  refine ⟨hsr, ?_, ?_⟩
  · intro hbg
    unfold Wait
    rw [firstErr_eq_none_iff]
    intro r hr
    rcases List.mem_append.mp hr with h | h
    · exact hbg r h
    · rw [List.mem_singleton] at h
      subst h
      simp [hsr]
  · intro s hs t err hp
    have hd := hdone s hs
    rw [hp] at hd
    simp only [HookBeh.returnsBefore] at hd
    unfold observerReports
    refine List.mem_filterMap.mpr ⟨s, hs, ?_⟩
    rw [hp]
    simp [hwin t hd]

/-- C1 witness: with two succeeding background tasks, a hook failing at
one second and a hook succeeding at two seconds, `cancelOnError` false
and the default ten-second deadline, `shutdown()` and `Wait()` both
return nil and both hook outcomes reach the observer. -/
theorem claim_C1_witness :
    shutdownResult gC1w = none ∧
    ((∀ r ∈ gC1w.bgTasks, r = none) → Wait gC1w = none) ∧
    (∀ s ∈ gC1w.shutdowns, ∀ t err, s.process = .completes t err →
      (s.tag, err) ∈ observerReports gC1w) :=
  claim_C1_cancelOnError_false_hook_failures_not_propagated gC1w
    (by decide) (by decide)

/-- C2: if `cancelOnError` is true and a hook fails before the deadline
with the earliest failure among all hooks, that failure becomes the
result of that hook's execution unit, propagates as the shared
cancellation cause of the shutdown group, `shutdown()` returns a
non-nil error, and `Wait()` returns a non-success result. -/
theorem claim_C2_cancelOnError_true_first_failure_propagates
    (g : Graceful) (s : Shutdown) (t : Int) (e : GoErr)
    (hco : g.cancelOnError = true)
    (hs : s ∈ g.shutdowns)
    (hp : s.process = .completes t (some e))
    (ht : t < g.maxShutdownTime)
    (hfirst : ∀ s' ∈ g.shutdowns, firstFailureAt t e s') :
    unitResult g s = some e ∧
    cancelCause g = some e ∧
    shutdownResult g ≠ none ∧
    Wait g ≠ none := by
  have hmin : ∀ s' ∈ g.shutdowns, ∀ t' e',
      s'.process = .completes t' (some e') → t < t' ∨ (t' = t ∧ e' = e) := by
    intro s' hs' t' e' hp'
    have h := hfirst s' hs'
    simp only [firstFailureAt, hp'] at h
    exact h
  have hfe : firstErrHook g = some (t, e) :=
    firstErrHook_eq g t e ⟨s, hs, hp⟩ hmin
  have hci : cancelInfo g = some (t, e) := by simp [cancelInfo, hco, hfe]
  have hct : cancelTime g = t := by simp [cancelTime, hci, ht]
  have hcc : cancelCause g = some e := by simp [cancelCause, hci, ht]
  have hwin : processWinsAt g t = true := by
    simp [processWinsAt, hcc, hct]
  have hu : unitResult g s = some e := by
    simp [unitResult, hp, hwin, hco]
  have hsrne : shutdownResult g ≠ none := shutdownResult_ne_none g hs hu
  refine ⟨hu, hcc, hsrne, ?_⟩
  intro hw
  unfold Wait at hw
  rw [firstErr_eq_none_iff] at hw
  have hmem : (if waitInvokesShutdown g then shutdownResult g else none) ∈
      g.bgTasks ++ [if waitInvokesShutdown g then shutdownResult g else none] :=
    List.mem_append_right _ (List.mem_singleton.mpr rfl)
  have hlast := hw _ hmem
  rw [waitInvokesShutdown_true g hs, if_pos rfl] at hlast
  exact hsrne hlast

/-- C2 witness: same fixture as C1 but with `cancelOnError` on; the
hook failing at one second (the earliest failure) yields its error as
its unit result and as the cancellation cause, and both `shutdown()`
and `Wait()` are non-nil. -/
theorem claim_C2_witness :
    unitResult gC2w hookAReg = some (.errMsg "errA") ∧
    cancelCause gC2w = some (.errMsg "errA") ∧
    shutdownResult gC2w ≠ none ∧
    Wait gC2w ≠ none :=
  claim_C2_cancelOnError_true_first_failure_propagates gC2w hookAReg
    second (.errMsg "errA") (by decide) (by decide) (by decide) (by decide)
    (by decide)

/-- C3: for every hook whose process has not returned when the
coordinator's deadline token fires (that is, the shutdown group's
cancellation is the deadline, not an earlier error cancellation — which
is automatic when `cancelOnError` is false and means no earlier hook
error when it is true), that hook's execution unit resolves with the
deadline-exceeded error exactly at the deadline (the wait is abandoned,
the underlying function is not terminated), and the coordinator's
aggregated result is the deadline-exceeded error, with no hypothesis on
`cancelOnError`. -/
theorem claim_C3_deadline_abandons_hanging_hook
    (g : Graceful) (s : Shutdown)
    (hs : s ∈ g.shutdowns)
    (hp : s.process = .hangs)
    (hdl : cancelCause g = none) :
    unitResult g s = some .deadlineExceeded ∧
    resTime g s = g.maxShutdownTime ∧
    shutdownResult g = some .deadlineExceeded := by
  have hctx := ctxErr_of_cancelCause_none g hdl
  have hct := cancelTime_of_cancelCause_none g hdl
  have hu : unitResult g s = some .deadlineExceeded := by
    simp [unitResult, hp, hctx]
  refine ⟨hu, by simp [resTime, hp, hct], ?_⟩
  have hne : shutdownResult g ≠ none := shutdownResult_ne_none g hs hu
  rcases hsr : shutdownResult g with _ | e
  · exact absurd hsr hne
  · rcases shutdownResult_mem g hsr with ⟨s', hs', hu'⟩
    rw [unitResult_of_cancelCause_none g hdl hs' hu']

/-- C3 witness: an orchestrator with a single hanging hook; its unit
resolves at the ten-second default deadline with the deadline-exceeded
error, which is also the aggregated result. -/
theorem claim_C3_witness :
    unitResult gC3w hookHangReg = some .deadlineExceeded ∧
    resTime gC3w hookHangReg = gC3w.maxShutdownTime ∧
    shutdownResult gC3w = some .deadlineExceeded :=
  claim_C3_deadline_abandons_hanging_hook gC3w hookHangReg
    (by decide) (by decide) (by decide)

end Graceful

namespace Graceful

/-- C4: `SetMaxShutdownTime` stores the default ten seconds for every
non-positive duration and the given duration otherwise;
`SetMaxShutdownProcess` stores the default five for every non-positive
count and the given count otherwise. Both are total functions: they can
neither error nor crash. -/
theorem claim_C4_setters_default_on_nonpositive
    (g : Graceful) (d₁ d₂ n₁ n₂ : Int)
    (hd₁ : d₁ ≤ 0) (hd₂ : 0 < d₂) (hn₁ : n₁ ≤ 0) (hn₂ : 1 ≤ n₂) :
    (g.SetMaxShutdownTime d₁).maxShutdownTime = defaultMaxShutdownTime ∧
    (g.SetMaxShutdownTime d₂).maxShutdownTime = d₂ ∧
    (g.SetMaxShutdownProcess n₁).maxShutdownProcess =
      defaultMaxShutdownProcess ∧
    (g.SetMaxShutdownProcess n₂).maxShutdownProcess = n₂ ∧
    defaultMaxShutdownTime = 10 * second ∧
    defaultMaxShutdownProcess = 5 := by
  refine ⟨?_, ?_, ?_, ?_, rfl, rfl⟩
  · simp [SetMaxShutdownTime, show d₁ < 1 by omega]
  · simp [SetMaxShutdownTime, show ¬d₂ < 1 by omega]
  · simp [SetMaxShutdownProcess, show n₁ < 1 by omega]
  · simp [SetMaxShutdownProcess, show ¬n₂ < 1 by omega]

/-- C4 witness: setting minus three seconds and zero falls back to the
defaults, while seven seconds and a cap of two are stored. -/
theorem claim_C4_witness :
    ((Graceful.New []).SetMaxShutdownTime (-3)).maxShutdownTime =
      defaultMaxShutdownTime ∧
    ((Graceful.New []).SetMaxShutdownTime (7 * second)).maxShutdownTime =
      7 * second ∧
    ((Graceful.New []).SetMaxShutdownProcess 0).maxShutdownProcess =
      defaultMaxShutdownProcess ∧
    ((Graceful.New []).SetMaxShutdownProcess 2).maxShutdownProcess = 2 ∧
    defaultMaxShutdownTime = 10 * second ∧
    defaultMaxShutdownProcess = 5 :=
  claim_C4_setters_default_on_nonpositive (Graceful.New []) (-3)
    (7 * second) 0 2 (by decide) (by decide) (by decide) (by decide)

/-- C5: passing a nil function to any of the four registration
operations is a no-op: the orchestrator state (task group, hook
registry, id counter) is entirely unchanged, nothing is scheduled, and
the hook-registering variants return the empty id string. -/
theorem claim_C5_nil_registration_is_noop (g : Graceful) (tag : String) :
    g.RegisterProcess none = g ∧
    g.RegisterProcessWithContext none = g ∧
    g.RegisterShutdownProcess none = (g, "") ∧
    g.RegisterShutdownProcessWithTag none tag = (g, "") :=
  ⟨rfl, rfl, rfl, rfl⟩

/-- C6: with zero registered hooks and no failing background task,
`Wait()` returns nil after the termination signal and its internal
goroutine never invokes the shutdown coordinator. -/
theorem claim_C6_wait_success_without_hooks (g : Graceful)
    (hnone : g.shutdowns = [])
    (hbg : ∀ r ∈ g.bgTasks, r = none) :
    Wait g = none ∧ waitInvokesShutdown g = false := by
  have hinv : waitInvokesShutdown g = false := by
    simp [waitInvokesShutdown, hnone]
  refine ⟨?_, hinv⟩
  unfold Wait
  rw [firstErr_eq_none_iff]
  intro r hr
  rcases List.mem_append.mp hr with h | h
  · exact hbg r h
  · rw [List.mem_singleton] at h
    subst h
    simp [hinv]

/-- C6 witness: an orchestrator with one succeeding background task and
no hooks returns nil from `Wait()` without entering `shutdown()`. -/
theorem claim_C6_witness :
    Wait gC6w = none ∧ waitInvokesShutdown gC6w = false :=
  claim_C6_wait_success_without_hooks gC6w (by decide) (by decide)

/-- C7: a freshly constructed orchestrator has the default ten-second
shutdown time, concurrency cap five, `cancelOnError` false and an empty
hook registry; with no signals supplied the watcher subscribes to the
default set (interrupt, SIGINT, SIGTERM, SIGHUP), and with signals
supplied exactly those are used; `New` agrees with `NewWithContext`. -/
theorem claim_C7_fresh_orchestrator_defaults (sigs : List Sig)
    (hne : sigs ≠ []) :
    (NewWithContext sigs).maxShutdownTime = 10 * second ∧
    (NewWithContext sigs).maxShutdownProcess = 5 ∧
    (NewWithContext sigs).cancelOnError = false ∧
    (NewWithContext sigs).shutdowns = [] ∧
    (NewWithContext sigs).signals = sigs ∧
    (NewWithContext []).maxShutdownTime = 10 * second ∧
    (NewWithContext []).maxShutdownProcess = 5 ∧
    (NewWithContext []).cancelOnError = false ∧
    (NewWithContext []).shutdowns = [] ∧
    (NewWithContext []).signals = defaultSignals ∧
    defaultSignals = [.osInterrupt, .sigint, .sigterm, .sighup] ∧
    New sigs = NewWithContext sigs ∧
    New [] = NewWithContext [] := by
  have hlen : ¬sigs.length = 0 := by
    simpa [List.length_eq_zero] using hne
  refine ⟨rfl, rfl, rfl, rfl, ?_, rfl, rfl, rfl, rfl, rfl, rfl, rfl, rfl⟩
  simp [NewWithContext, hlen]

/-- C7 witness: constructing with the single signal SIGTERM keeps the
defaults and subscribes to exactly that signal. -/
theorem claim_C7_witness :
    (NewWithContext [Sig.sigterm]).maxShutdownTime = 10 * second ∧
    (NewWithContext [Sig.sigterm]).maxShutdownProcess = 5 ∧
    (NewWithContext [Sig.sigterm]).cancelOnError = false ∧
    (NewWithContext [Sig.sigterm]).shutdowns = [] ∧
    (NewWithContext [Sig.sigterm]).signals = [Sig.sigterm] ∧
    (NewWithContext []).maxShutdownTime = 10 * second ∧
    (NewWithContext []).maxShutdownProcess = 5 ∧
    (NewWithContext []).cancelOnError = false ∧
    (NewWithContext []).shutdowns = [] ∧
    (NewWithContext []).signals = defaultSignals ∧
    defaultSignals = [.osInterrupt, .sigint, .sigterm, .sighup] ∧
    New [Sig.sigterm] = NewWithContext [Sig.sigterm] ∧
    New [] = NewWithContext [] :=
  claim_C7_fresh_orchestrator_defaults [Sig.sigterm] (by decide)

/-- C8: a hook created by `newShutdown` with an empty caller tag gets
the string form of its freshly drawn id as tag, a non-empty caller tag
is stored unchanged, the returned id is the stored id, the process
function is stored unchanged, and hooks already in the registry are
never modified by later registrations. -/
theorem claim_C8_tag_defaults_to_id_and_hook_immutable
    (fresh : Nat) (tagNE : String) (hne : tagNE ≠ "") (p : HookBeh)
    (g : Graceful) (p' : HookBeh) (tag' : String) (n : Nat)
    (hn : n < g.shutdowns.length) :
    (newShutdown fresh "" p).1.tag = uuidString (newShutdown fresh "" p).2 ∧
    (newShutdown fresh tagNE p).1.tag = tagNE ∧
    (newShutdown fresh tagNE p).1.id = (newShutdown fresh tagNE p).2 ∧
    (newShutdown fresh "" p).1.id = (newShutdown fresh "" p).2 ∧
    (newShutdown fresh tagNE p).1.process = p ∧
    (newShutdown fresh "" p).1.process = p ∧
    ((g.RegisterShutdownProcessWithTag (some p') tag').1).shutdowns[n]? =
      g.shutdowns[n]? := by
  refine ⟨rfl, ?_, rfl, rfl, rfl, rfl, ?_⟩
  · simp [newShutdown, hne]
  · show (g.shutdowns ++ [(newShutdown g.nextId tag' p').1])[n]? =
      g.shutdowns[n]?
    exact List.getElem?_append_left hn

/-- C8 witness: a hook created with id 7 and tag `"x"` keeps that tag;
with an empty tag it gets `"7"`; registering another hook leaves the
first registry entry untouched. -/
theorem claim_C8_witness :
    (newShutdown 7 "" hookA).1.tag = uuidString (newShutdown 7 "" hookA).2 ∧
    (newShutdown 7 "x" hookA).1.tag = "x" ∧
    (newShutdown 7 "x" hookA).1.id = (newShutdown 7 "x" hookA).2 ∧
    (newShutdown 7 "" hookA).1.id = (newShutdown 7 "" hookA).2 ∧
    (newShutdown 7 "x" hookA).1.process = hookA ∧
    (newShutdown 7 "" hookA).1.process = hookA ∧
    ((gC9w.RegisterShutdownProcessWithTag (some hookB) "y").1).shutdowns[0]? =
      gC9w.shutdowns[0]? :=
  claim_C8_tag_defaults_to_id_and_hook_immutable 7 "x" (by decide) hookA
    gC9w hookB "y" 0 (by decide)

/-- C10: registering a non-nil process appends exactly one entry built
by `newShutdown` (so the registry grows by one and every earlier entry
keeps its position and value), the new entry stores the given process,
and the returned string is the string form of the new entry's id. -/
theorem claim_C10_register_appends_exactly_one
    (g : Graceful) (p : HookBeh) (tag : String) :
    (g.RegisterShutdownProcessWithTag (some p) tag).1.shutdowns =
      g.shutdowns ++ [(newShutdown g.nextId tag p).1] ∧
    (g.RegisterShutdownProcessWithTag (some p) tag).1.shutdowns.length =
      g.shutdowns.length + 1 ∧
    (newShutdown g.nextId tag p).1.process = p ∧
    (g.RegisterShutdownProcessWithTag (some p) tag).2 =
      uuidString (newShutdown g.nextId tag p).1.id := by
  refine ⟨rfl, ?_, rfl, rfl⟩
  show (g.shutdowns ++ [(newShutdown g.nextId tag p).1]).length =
    g.shutdowns.length + 1
  simp

end Graceful

/-- One pool-scheduler step keeps the number of running hook units
within the limit. -/
theorem poolStep_preserves_bound {limit : Nat} {a b : PoolState}
    (h : PoolStep limit a b) (ha : a.running.length ≤ limit) :
    b.running.length ≤ limit := by
  cases h with
  | enter s rest running hfree =>
      simp only [List.length_cons]
      omega
  | finish waiting r₁ r₂ s =>
      simp only [List.length_append, List.length_cons] at ha ⊢
      omega

/-- C9: in every state the limited shutdown errgroup can reach from the
start of `shutdown()`, at most `maxShutdownProcess` hook execution
units are running concurrently; a hook beyond the cap is admitted only
once a slot is free (the `enter` step's guard). -/
theorem claim_C9_concurrency_bounded (g : Graceful) (st : PoolState)
    (h : PoolReach g.maxShutdownProcess.toNat g.initPool st) :
    st.running.length ≤ g.maxShutdownProcess.toNat := by
  have hgen : ∀ a b : PoolState, PoolReach g.maxShutdownProcess.toNat a b →
      a.running.length ≤ g.maxShutdownProcess.toNat →
      b.running.length ≤ g.maxShutdownProcess.toNat := by
    intro a b hr
    induction hr with
    | refl st => exact id
    | step hs _ ih => exact fun ha => ih (poolStep_preserves_bound hs ha)
  exact hgen _ _ h (by simp [Graceful.initPool])

/-- C9 witness: with cap one and two registered hooks, the state after
admitting the first hook is reachable and runs one unit, within the
cap. -/
theorem claim_C9_witness :
    poolC9w.running.length ≤ gC9w.maxShutdownProcess.toNat := by
  have hinit : gC9w.initPool =
      PoolState.mk ((newShutdown 0 "a" hookA).1 :: [hookBReg]) [] := by
    decide
  exact claim_C9_concurrency_bounded gC9w poolC9w
    (by
      rw [hinit]
      exact PoolReach.step
        (PoolStep.enter (newShutdown 0 "a" hookA).1 [hookBReg] []
          (by decide))
        (PoolReach.refl poolC9w))
